import Mathlib

/-!
Verification of the Tella-Desktop core against its specification.

The Go source is shallowly embedded: bytes are `Nat` values (kept below 256
where it matters), byte buffers and files are `List Nat`, SQL tables are Lean
lists kept in rowid (insertion) order, and fallible operations return
`Except`/`Option`.  Randomness (UUIDs, nonces, random keys) and the clock are
passed in as explicit parameters.  Each definition mirrors one function of the
repository; two functions that exist only outside the provided sources
(`authutils.EncryptData` / `authutils.DecryptData`) are modelled from the
specification and marked as such.
-/

set_option maxHeartbeats 1000000
set_option maxRecDepth 8192

namespace Tella

/-! ## Constants (backend/utils/constants/auth.go) -/

def LengthFieldSize : Nat := 4
def KeyLength : Nat := 32
def SaltLength : Nat := 32
def TVaultHeaderSize : Nat := 256
def CurrentTVaultVersion : Nat := 1
def PasswordMinLength : Nat := 6
def PasswordMaxLength : Nat := 1000

/-! ## Little-endian 32-bit length fields (encoding/binary, LittleEndian) -/

/-- Embeds `binary.LittleEndian.PutUint32`: the four little-endian bytes of `n % 2^32`. -/
def putUint32le (n : Nat) : List Nat :=
  [n % 256, n / 256 % 256, n / 65536 % 256, n / 16777216 % 256]

/-- Embeds `binary.LittleEndian.Uint32` on a 4-byte buffer. -/
def getUint32le (b : List Nat) : Nat :=
  match b with
  | [b0, b1, b2, b3] => b0 % 256 + 256 * (b1 % 256) + 65536 * (b2 % 256) + 16777216 * (b3 % 256)
  | _ => 0

theorem putUint32le_length (n : Nat) : (putUint32le n).length = 4 := rfl

theorem getUint32le_putUint32le (n : Nat) (h : n < 4294967296) :
    getUint32le (putUint32le n) = n := by
  simp only [putUint32le, getUint32le]
  omega

/-! ## TVault header (backend/utils/authutils/tvault.go) -/

/-- Embeds `writeLengthAndData`: a 4-byte little-endian length prefix followed by the data. -/
def writeLengthAndData (data : List Nat) : List Nat :=
  putUint32le data.length ++ data

/-- Embeds `InitializeTVaultHeader`: version byte, length-prefixed salt, length-prefixed
wrapped key, then zero padding up to `TVaultHeaderSize` (none if already longer). -/
def initializeTVaultHeader (salt encryptDBKey : List Nat) : List Nat :=
  let core := CurrentTVaultVersion :: (writeLengthAndData salt ++ writeLengthAndData encryptDBKey)
  core ++ List.replicate (TVaultHeaderSize - core.length) 0

/-- Errors surfaced by `ReadTVaultHeader` (constants/auth.go). -/
inductive TVaultReadError where
  | vaultMissing
  | corrupted
  | unsupportedVersion
  deriving DecidableEq, Repr

/-- Embeds `readLengthPrefixedData`: `io.ReadFull` of a 4-byte length field, then
`io.ReadFull` of that many data bytes; `none` models a short read. -/
def readLengthPrefixedData (b : List Nat) : Option (List Nat × List Nat) :=
  if 4 ≤ b.length then
    let n := getUint32le (b.take 4)
    let rest := b.drop 4
    if n ≤ rest.length then some (rest.take n, rest.drop n) else none
  else none

/-- Embeds `ReadTVaultHeader`: the argument is `none` when the tvault file does not
exist.  Reads the version byte (failure ⇒ corrupted), rejects version `v` with
`v ≤ 0 ∨ v > CurrentTVaultVersion` as unsupported, then reads the two
length-prefixed fields (failure ⇒ corrupted). -/
def readTVaultHeader (file : Option (List Nat)) :
    Except TVaultReadError (List Nat × List Nat) :=
  match file with
  | none => .error .vaultMissing
  | some bytes =>
    match bytes with
    | [] => .error .corrupted
    | v :: rest =>
      if v = 0 ∨ CurrentTVaultVersion < v then .error .unsupportedVersion
      else
        match readLengthPrefixedData rest with
        | none => .error .corrupted
        | some (salt, rest2) =>
          match readLengthPrefixedData rest2 with
          | none => .error .corrupted
          | some (encryptedKey, _) => .ok (salt, encryptedKey)

theorem readLengthPrefixedData_roundtrip (d rest : List Nat) (h : d.length < 4294967296) :
    readLengthPrefixedData (writeLengthAndData d ++ rest) = some (d, rest) := by
  have h4 : (4 : Nat) = (putUint32le d.length).length := (putUint32le_length _).symm
  have hlen : (writeLengthAndData d ++ rest).length = 4 + d.length + rest.length := by
    simp [writeLengthAndData, putUint32le]; omega
  have htake : (writeLengthAndData d ++ rest).take 4 = putUint32le d.length := by
    rw [writeLengthAndData, List.append_assoc, h4, List.take_left]
  have hdrop : (writeLengthAndData d ++ rest).drop 4 = d ++ rest := by
    rw [writeLengthAndData, List.append_assoc, h4, List.drop_left]
  simp only [readLengthPrefixedData, hlen, htake, hdrop, getUint32le_putUint32le d.length h]
  rw [if_pos (by omega), if_pos (by simp)]
  simp

/-- C5. For every 32-byte salt and wrapped key of length at most
`256 − 1 − 4 − 32 − 4`, writing the header with `InitializeTVaultHeader` and
then running `ReadTVaultHeader` returns exactly `(salt, key)`, and the written
header is zero-padded to exactly 256 bytes. -/
theorem initializeTVaultHeader_read_roundtrip (salt key : List Nat)
    (hsalt : salt.length = SaltLength)
    (hkey : key.length ≤ TVaultHeaderSize - 1 - LengthFieldSize - SaltLength - LengthFieldSize) :
    readTVaultHeader (some (initializeTVaultHeader salt key)) = .ok (salt, key) ∧
    (initializeTVaultHeader salt key).length = TVaultHeaderSize := by
  have hsalt32 : salt.length = 32 := hsalt
  have hkey215 : key.length ≤ 215 := by
    simpa [TVaultHeaderSize, LengthFieldSize, SaltLength] using hkey
  have hshape : initializeTVaultHeader salt key =
      1 :: (writeLengthAndData salt ++
        (writeLengthAndData key ++
          List.replicate (TVaultHeaderSize -
            (CurrentTVaultVersion ::
              (writeLengthAndData salt ++ writeLengthAndData key)).length) 0)) := by
    simp [initializeTVaultHeader, CurrentTVaultVersion, List.append_assoc]
  constructor
  · rw [hshape, readTVaultHeader]
    rw [if_neg (by simp [CurrentTVaultVersion])]
    simp only [readLengthPrefixedData_roundtrip salt _ (by omega),
      readLengthPrefixedData_roundtrip key _ (by omega)]
  · have hcore : (CurrentTVaultVersion ::
        (writeLengthAndData salt ++ writeLengthAndData key)).length = 41 + key.length := by
      simp [writeLengthAndData, putUint32le, hsalt32]; omega
    simp only [initializeTVaultHeader, List.length_append, List.length_replicate, hcore]
    simp only [TVaultHeaderSize]
    omega

/-- Witness for C5 at a concrete salt and key. -/
theorem initializeTVaultHeader_read_roundtrip_witness :
    readTVaultHeader (some (initializeTVaultHeader (List.replicate 32 7) [1, 2, 3])) =
      .ok (List.replicate 32 7, [1, 2, 3]) ∧
    (initializeTVaultHeader (List.replicate 32 7) [1, 2, 3]).length = TVaultHeaderSize :=
  initializeTVaultHeader_read_roundtrip (List.replicate 32 7) [1, 2, 3]
    (by simp [SaltLength]) (by simp [TVaultHeaderSize, LengthFieldSize, SaltLength])

/-- C6 counterexample. A 256-byte header whose version byte is 0 yields
`UnsupportedVersion`, not `Corrupted` as the claim states; and a 9-byte header
(version 1, zero-length salt and key) is read successfully even though its
length is below 37, contradicting "Corrupted when the file length is below 37
bytes or the version byte is outside [1, current]". -/
theorem readTVaultHeader_error_counterexample :
    readTVaultHeader (some (0 :: List.replicate 255 0)) = .error .unsupportedVersion ∧
    readTVaultHeader (some (0 :: List.replicate 255 0)) ≠ .error .corrupted ∧
    readTVaultHeader (some [1, 0, 0, 0, 0, 0, 0, 0, 0]) = .ok ([], []) := by
  refine ⟨rfl, by simp [readTVaultHeader], rfl⟩

/-- C6 (amended). `ReadTVaultHeader` fails with `VaultMissing` exactly when
the file is absent; for a non-empty file it fails with `UnsupportedVersion`
exactly when the version byte is 0 or above the current version (in particular,
version byte 0 yields `UnsupportedVersion`, not `Corrupted`); an empty file
yields `Corrupted`; and for version byte 1 it yields `Corrupted` exactly when
one of the two length-prefixed reads is truncated. -/
theorem readTVaultHeader_error_classification :
    readTVaultHeader none = .error .vaultMissing ∧
    (∀ b : List Nat, readTVaultHeader (some b) ≠ .error .vaultMissing) ∧
    readTVaultHeader (some []) = .error .corrupted ∧
    (∀ (v : Nat) (rest : List Nat),
      readTVaultHeader (some (v :: rest)) = .error .unsupportedVersion
        ↔ (v = 0 ∨ CurrentTVaultVersion < v)) ∧
    (∀ rest : List Nat,
      readTVaultHeader (some ((1 : Nat) :: rest)) = .error .corrupted
        ↔ (readLengthPrefixedData rest = none ∨
            ∃ s r2, readLengthPrefixedData rest = some (s, r2) ∧
              readLengthPrefixedData r2 = none)) := by
  refine ⟨rfl, ?_, rfl, ?_, ?_⟩
  · intro b
    match b with
    | [] => simp [readTVaultHeader]
    | v :: rest =>
      simp only [readTVaultHeader]
      split
      · simp
      · rcases h1 : readLengthPrefixedData rest with _ | ⟨s, r2⟩
        · simp [h1]
        · rcases h2 : readLengthPrefixedData r2 with _ | ⟨k, r3⟩ <;> simp [h1, h2]
  · intro v rest
    simp only [readTVaultHeader]
    split
    · rename_i hcond
      simpa using hcond
    · rename_i hcond
      constructor
      · intro h
        exfalso
        rcases h1 : readLengthPrefixedData rest with _ | ⟨s, r2⟩
        · simp [h1] at h
        · rcases h2 : readLengthPrefixedData r2 with _ | ⟨k, r3⟩ <;> simp [h1, h2] at h
      · intro h; exact absurd h hcond
  · intro rest
    simp only [readTVaultHeader]
    rw [if_neg (by simp [CurrentTVaultVersion])]
    rcases h1 : readLengthPrefixedData rest with _ | ⟨s, r2⟩
    · simp [h1]
    · rcases h2 : readLengthPrefixedData r2 with _ | ⟨k, r3⟩ <;> simp [h1, h2]
      exact ⟨s, r2, ⟨rfl, rfl⟩, h2⟩

/-! ## Free-space allocation (backend/utils/filestoreutils/filestoreutils.go, FindSpace) -/

/-- A row of the `free_spaces` table.  Rows are kept in `id` (rowid) order. -/
structure FreeSpace where
  id : Nat
  offset : Nat
  length : Nat
  deriving DecidableEq, Repr

/-- One step of the row scan that SQLite performs for
`ORDER BY length ASC LIMIT 1`: keep the current best row unless the new row is
strictly shorter, so ties keep the earlier rowid.  SQL itself leaves the tie
order among equal lengths unspecified; the model fixes the implementation's
keep-first-strict-min scan over rows in rowid order, which is the behaviour
the deployed engine exhibits.  Either way no reading of the query yields the
ascending-offset tie-break the original claim states. -/
def minScan (b : FreeSpace) (l : List FreeSpace) : FreeSpace :=
  l.foldl (fun b r => if r.length < b.length then r else b) b

/-- Embeds `SELECT id, offset FROM free_spaces WHERE length >= ? ORDER BY length ASC
LIMIT 1`, scanning rows in rowid order. -/
def sqlBestFit (rows : List FreeSpace) (size : Nat) : Option FreeSpace :=
  match rows.filter (fun r => size ≤ r.length) with
  | [] => none
  | x :: xs => some (minScan x xs)

/-- Embeds `FindSpace`: take the best-fit free-space row if one fits, delete it
(`DELETE FROM free_spaces WHERE id = ?`) and return its offset; otherwise
return the current tvault file size and leave the table unchanged. -/
def findSpace (rows : List FreeSpace) (size fileSize : Nat) : Nat × List FreeSpace :=
  match sqlBestFit rows size with
  | some r => (r.offset, rows.filter (fun q => q.id ≠ r.id))
  | none => (fileSize, rows)

/-- The offset that the claim's words prescribe: the free-space record with the
smallest `length ≥ size`, ties broken by ascending length and then by ascending
offset; the file size if no record fits.  (Stated from the spec for comparison
with `findSpace`, which is stated from the source.) -/
def findSpaceClaimOffset (rows : List FreeSpace) (size fileSize : Nat) : Nat :=
  match rows.filter (fun r => size ≤ r.length) with
  | [] => fileSize
  | x :: xs =>
    (xs.foldl (fun b r =>
      if r.length < b.length ∨ (r.length = b.length ∧ r.offset < b.offset) then r else b) x).offset

theorem minScan_spec (l : List FreeSpace) (b : FreeSpace) :
    ∃ pre post, b :: l = pre ++ minScan b l :: post ∧
      (∀ q ∈ pre, (minScan b l).length < q.length) ∧
      (∀ q ∈ b :: l, (minScan b l).length ≤ q.length) := by
  induction l generalizing b with
  | nil => exact ⟨[], [], rfl, by simp, by simp [minScan]⟩
  | cons x xs ih =>
    by_cases hx : x.length < b.length
    · have hms : minScan b (x :: xs) = minScan x xs := by simp [minScan, hx]
      obtain ⟨pre, post, hdec, hpre, hmin⟩ := ih x
      refine ⟨b :: pre, post, ?_, ?_, ?_⟩
      · rw [hms]
        simpa using hdec
      · intro q hq
        rw [hms]
        rcases List.mem_cons.mp hq with rfl | hq
        · have := hmin x (by simp)
          omega
        · exact hpre q hq
      · intro q hq
        rw [hms]
        rcases List.mem_cons.mp hq with rfl | hq
        · have := hmin x (by simp)
          omega
        · exact hmin q hq
    · obtain ⟨pre, post, hdec, hpre, hmin⟩ := ih b
      set m := minScan b xs with hm
      have hms : minScan b (x :: xs) = m := by
        rw [hm]
        simp [minScan, hx]
      rw [hms]
      match pre, hdec, hpre with
      | [], hdec, _ =>
        have hb : b = m := by
          simp only [List.nil_append, List.cons.injEq] at hdec
          exact hdec.1
        have hbl : b.length = m.length := by rw [hb]
        refine ⟨[], x :: xs, by rw [← hb]; rfl, by simp, ?_⟩
        intro q hq
        rcases List.mem_cons.mp hq with rfl | hq
        · omega
        rcases List.mem_cons.mp hq with rfl | hq
        · omega
        · exact hmin q (by simp [hq])
      | b' :: pre', hdec, hpre =>
        simp only [List.cons_append, List.cons.injEq] at hdec
        obtain ⟨hb', hxs⟩ := hdec
        subst hb'
        refine ⟨b :: x :: pre', post, ?_, ?_, ?_⟩
        · simp [hxs]
        · intro q hq
          have hpb := hpre b (by simp)
          rcases List.mem_cons.mp hq with rfl | hq
          · exact hpb
          rcases List.mem_cons.mp hq with rfl | hq
          · omega
          · exact hpre q (by simp [hq])
        · intro q hq
          have hpb := hpre b (by simp)
          rcases List.mem_cons.mp hq with rfl | hq
          · omega
          rcases List.mem_cons.mp hq with rfl | hq
          · omega
          · exact hmin q (by simp [hq])

/-- With pairwise-distinct row ids, deleting by the id of a member row removes
exactly that row. -/
theorem filter_ne_id_of_nodup (rows : List FreeSpace) (r : FreeSpace)
    (hnodup : (rows.map FreeSpace.id).Nodup) (hmem : r ∈ rows) :
    ∃ a c, rows = a ++ r :: c ∧ rows.filter (fun q => q.id ≠ r.id) = a ++ c := by
  induction rows with
  | nil => cases hmem
  | cons y ys ih =>
    simp only [List.map_cons, List.nodup_cons] at hnodup
    rcases List.mem_cons.mp hmem with rfl | hmem
    · refine ⟨[], ys, rfl, ?_⟩
      have h1 : (r :: ys).filter (fun q => q.id ≠ r.id) = ys.filter (fun q => q.id ≠ r.id) := by
        simp [List.filter_cons]
      rw [h1, List.nil_append, List.filter_eq_self]
      intro q hq
      simp only [ne_eq, decide_eq_true_eq]
      intro hcontra
      exact hnodup.1 (hcontra ▸ List.mem_map_of_mem FreeSpace.id hq)
    · obtain ⟨a, c, hdec, hfil⟩ := ih hnodup.2 hmem
      have hy : y.id ≠ r.id := by
        intro hcontra
        exact hnodup.1 (hcontra ▸ List.mem_map_of_mem FreeSpace.id hmem)
      have hfil' : ys.filter (fun q => !decide (q.id = r.id)) = a ++ c := by
        simpa using hfil
      refine ⟨y :: a, c, by simp [hdec], ?_⟩
      simp [List.filter_cons, hy, hfil']

/-- C2 counterexample. Two free-space records of equal length 10 (enough
for the request): the one with the higher offset 500 has the smaller rowid, and
`FindSpace` returns offset 500, while the claim's tie-break by ascending offset
prescribes offset 300. -/
theorem findSpace_tiebreak_counterexample :
    findSpace [⟨1, 500, 10⟩, ⟨2, 300, 10⟩] 10 506 = (500, [⟨2, 300, 10⟩]) ∧
    findSpaceClaimOffset [⟨1, 500, 10⟩, ⟨2, 300, 10⟩] 10 506 = 300 ∧
    (500 : Nat) ≠ 300 :=
  ⟨rfl, rfl, by decide⟩

/-- C2 (amended). `FindSpace(size)` returns the offset of the free-space
record with the smallest `length ≥ size` and deletes exactly that record, with
ties between equal lengths broken by table (rowid) order — the earliest
inserted record wins, not the smallest offset; if no record has
`length ≥ size`, it returns the current tvault file size and deletes
nothing. -/
theorem findSpace_characterization (rows : List FreeSpace) (size fileSize : Nat)
    (hnodup : (rows.map FreeSpace.id).Nodup) :
    ((∀ r ∈ rows, r.length < size) → findSpace rows size fileSize = (fileSize, rows)) ∧
    ((∃ r ∈ rows, size ≤ r.length) →
      ∃ chosen pre post a c,
        rows.filter (fun q => size ≤ q.length) = pre ++ chosen :: post ∧
        size ≤ chosen.length ∧
        (∀ q ∈ pre, chosen.length < q.length) ∧
        (∀ q ∈ post, chosen.length ≤ q.length) ∧
        rows = a ++ chosen :: c ∧
        findSpace rows size fileSize = (chosen.offset, a ++ c)) := by
  constructor
  · intro hall
    have hfil : rows.filter (fun r => size ≤ r.length) = [] := by
      rw [List.filter_eq_nil_iff]
      intro r hr
      have := hall r hr
      simp only [decide_eq_true_eq]
      omega
    simp [findSpace, sqlBestFit, hfil]
  · rintro ⟨r0, hr0, hr0len⟩
    have hr0fil : r0 ∈ rows.filter (fun r => size ≤ r.length) := by
      simp only [List.mem_filter, decide_eq_true_eq]
      exact ⟨hr0, hr0len⟩
    match hfil : rows.filter (fun r => size ≤ r.length) with
    | [] => rw [hfil] at hr0fil; cases hr0fil
    | x :: xs =>
      obtain ⟨pre, post, hdec, hpre, hmin⟩ := minScan_spec xs x
      set chosen := minScan x xs with hchosen
      have hchosenfil : chosen ∈ rows.filter (fun r => size ≤ r.length) := by
        rw [hfil, hdec]
        simp
      have hchosenmem : chosen ∈ rows := (List.mem_filter.mp hchosenfil).1
      have hchosensize : size ≤ chosen.length := by
        have := (List.mem_filter.mp hchosenfil).2
        simpa using this
      obtain ⟨a, c, hrows, hdel⟩ := filter_ne_id_of_nodup rows chosen hnodup hchosenmem
      refine ⟨chosen, pre, post, a, c, ?_, hchosensize, hpre, ?_, hrows, ?_⟩
      · rw [hfil, hdec]
      · intro q hq
        exact hmin q (by rw [hdec]; simp [hq])
      · have hdel' : rows.filter (fun q => !decide (q.id = chosen.id)) = a ++ c := by
          simpa using hdel
        simp [findSpace, sqlBestFit, hfil, ← hchosen, hdel']

/-- Witness for C2 (amended) at the spec's allocator scenario: free spaces
`[(356, 50)]` after deleting the middle file, request of size 40 reuses offset
356; a request of size 80 appends at the file size 506. -/
theorem findSpace_characterization_witness :
    findSpace [⟨1, 356, 50⟩] 40 506 = (356, []) ∧ findSpace [⟨1, 356, 50⟩] 80 506 = (506, [⟨1, 356, 50⟩]) := by
  have h1 := (findSpace_characterization [⟨1, 356, 50⟩] 40 506 (by decide)).2
    ⟨⟨1, 356, 50⟩, by decide, by decide⟩
  have h2 := (findSpace_characterization [⟨1, 356, 50⟩] 80 506 (by decide)).1 (by decide)
  obtain ⟨chosen, pre, post, a, c, hfil, hsize, hpre, hpost, hrows, hres⟩ := h1
  refine ⟨?_, h2⟩
  · have hch : chosen = ⟨1, 356, 50⟩ := by
      have := hrows
      match a, this with
      | [], this => simp only [List.nil_append, List.cons.injEq] at this; exact this.1.symm
      | x :: a', this =>
        simp only [List.cons_append, List.cons.injEq] at this
        exact absurd this.2 (by simp)
    rw [hres, hch]
    have ha : a = [] := by
      match a, hrows with
      | [], _ => rfl
      | x :: a', hrows => simp only [List.cons_append, List.cons.injEq] at hrows; exact absurd hrows.2 (by simp)
    have hc : c = [] := by
      rw [ha] at hrows
      simp only [List.nil_append, List.cons.injEq] at hrows
      exact hrows.2.symm
    rw [ha, hc]
    rfl

/-! ## Authenticated blob encryption

`authutils.EncryptData` / `authutils.DecryptData` are not among the provided
source files (only their callers are), so they are modelled from the
specification. -/

def NonceSize : Nat := 24
def TagSize : Nat := 16

/-- Modelled from the spec: the authentication tag carried inside the sealed
part of a ciphertext.  §4.1 requires an authenticated construction whose
decryption fails on tampering or a wrong key; the concrete tag function is a
deterministic stand-in keyed on the key, nonce and payload. -/
def authTag (key nonce data : List Nat) : List Nat :=
  (List.range TagSize).map (fun i => (key.sum + nonce.sum + data.sum + i) % 256)

/-- Modelled from the spec: `authutils.EncryptData` (missing from the provided
sources).  §4.1: ciphertext = nonce ‖ sealed(plaintext) under a 32-byte key,
with a per-call random nonce, passed here as an explicit argument. -/
def encryptData (data key nonce : List Nat) : List Nat :=
  nonce ++ authTag key nonce data ++ data

/-- Modelled from the spec: `authutils.DecryptData` (missing from the provided
sources).  Splits off the nonce, recomputes and checks the tag, and returns
the payload; `none` models `CryptoFailure`. -/
def decryptData (ciphertext key : List Nat) : Option (List Nat) :=
  if NonceSize + TagSize ≤ ciphertext.length then
    let nonce := ciphertext.take NonceSize
    let tag := (ciphertext.drop NonceSize).take TagSize
    let body := ciphertext.drop (NonceSize + TagSize)
    if tag = authTag key nonce body then some body else none
  else none

theorem authTag_length (key nonce data : List Nat) : (authTag key nonce data).length = TagSize := by
  simp [authTag]

theorem decryptData_encryptData (data key nonce : List Nat) (h : nonce.length = NonceSize) :
    decryptData (encryptData data key nonce) key = some data := by
  have hlen : (encryptData data key nonce).length = NonceSize + TagSize + data.length := by
    simp [encryptData, authTag_length, h]
    omega
  have htake : (encryptData data key nonce).take NonceSize = nonce := by
    rw [encryptData, List.append_assoc]
    exact List.take_left' h
  have hdrop1 : (encryptData data key nonce).drop NonceSize = authTag key nonce data ++ data := by
    rw [encryptData, List.append_assoc]
    exact List.drop_left' h
  have htag : ((encryptData data key nonce).drop NonceSize).take TagSize = authTag key nonce data := by
    rw [hdrop1]
    exact List.take_left' (authTag_length key nonce data)
  have hbody : (encryptData data key nonce).drop (NonceSize + TagSize) = data := by
    rw [← List.drop_drop, hdrop1]
    exact List.drop_left' (authTag_length key nonce data)
  have hcond : NonceSize + TagSize ≤ NonceSize + TagSize + data.length := by omega
  simp only [decryptData, hlen, htake, htag, hbody]
  simp [hcond]

/-! ## Vault file and file metadata (backend/core/modules/filestore,
backend/utils/filestoreutils) -/

/-- Embeds `GenerateFileKey`: SHA-256 over the master key bytes followed by the file
UUID bytes.  Go's `crypto/sha256` is external; the hash is a parameter. -/
def generateFileKey (hash : List Nat → List Nat) (fileUUID : String) (dbKey : List Nat) :
    List Nat :=
  hash (dbKey ++ fileUUID.data.map Char.toNat)

/-- Embeds `os.File.WriteAt`: write `data` at absolute `offset`, zero-filling any gap
beyond the current end of file. -/
def writeAt (file : List Nat) (offset : Nat) (data : List Nat) : List Nat :=
  (file.take offset ++ List.replicate (offset - file.length) 0) ++ data ++
    file.drop (offset + data.length)

/-- Embeds `os.File.ReadAt` of exactly `len` bytes; `none` models a short read. -/
def readAt (file : List Nat) (offset len : Nat) : Option (List Nat) :=
  if offset + len ≤ file.length then some ((file.drop offset).take len) else none

theorem readAt_writeAt (file : List Nat) (offset : Nat) (data : List Nat) :
    readAt (writeAt file offset data) offset data.length = some data := by
  have hpre : (file.take offset ++ List.replicate (offset - file.length) 0).length = offset := by
    simp only [List.length_append, List.length_take, List.length_replicate]
    omega
  have hlen : offset + data.length ≤ (writeAt file offset data).length := by
    simp only [writeAt, List.length_append, hpre]
    omega
  have hdrop : (writeAt file offset data).drop offset =
      data ++ file.drop (offset + data.length) := by
    rw [writeAt, List.append_assoc]
    exact List.drop_left' hpre
  rw [readAt, if_pos hlen, hdrop, List.take_left]

/-- A row of the `files` table, in rowid order. -/
structure FileRec where
  id : Nat
  uuid : String
  name : String
  size : Nat
  mimeType : String
  folderId : Nat
  offset : Nat
  length : Nat
  isDeleted : Bool
  deriving DecidableEq, Repr

/-- The state owned by the filestore service: the tvault file bytes and the
metadata tables. -/
structure VaultState where
  vault : List Nat
  files : List FileRec
  freeSpaces : List FreeSpace
  nextFileId : Nat
  nextFreeSpaceId : Nat
  deriving Repr

/-- Embeds `service.StoreFile` (committed path): derive the per-file key, encrypt,
allocate via `FindSpace` (against the free-space table and the tvault size),
write the ciphertext at the returned offset, insert the file row.  The file
UUID and the encryption nonce are random inputs passed explicitly. -/
def storeFile (hash : List Nat → List Nat) (dbKey : List Nat) (st : VaultState)
    (fileUUID : String) (nonce : List Nat) (folderId : Nat) (fileName mimeType : String)
    (fileData : List Nat) : FileRec × VaultState :=
  let fileKey := generateFileKey hash fileUUID dbKey
  let encryptedData := encryptData fileData fileKey nonce
  let alloc := findSpace st.freeSpaces encryptedData.length st.vault.length
  let newRec : FileRec :=
    { id := st.nextFileId, uuid := fileUUID, name := fileName,
      size := fileData.length, mimeType := mimeType, folderId := folderId,
      offset := alloc.1, length := encryptedData.length, isDeleted := false }
  (newRec,
    { st with
      vault := writeAt st.vault alloc.1 encryptedData
      files := st.files ++ [newRec]
      freeSpaces := alloc.2
      nextFileId := st.nextFileId + 1 })

/-- Embeds `GetFileMetadataByID`: `SELECT ... FROM files WHERE id = ? AND is_deleted = 0`. -/
def getFileMetadataByID (files : List FileRec) (id : Nat) : Option FileRec :=
  files.find? (fun r => r.id = id ∧ r.isDeleted = false)

inductive ExportError where
  | fileNotFound
  | vaultReadFailed
  | cryptoFailure
  deriving DecidableEq, Repr

/-- Embeds `ExportSingleFile`: look up the metadata, read `length` bytes at `offset`
from the tvault, re-derive the per-file key from the master key and the stored
UUID, decrypt, and return the bytes written to the export path. -/
def exportSingleFile (hash : List Nat → List Nat) (dbKey : List Nat) (st : VaultState)
    (id : Nat) : Except ExportError (List Nat) :=
  match getFileMetadataByID st.files id with
  | none => .error .fileNotFound
  | some md =>
    match readAt st.vault md.offset md.length with
    | none => .error .vaultReadFailed
    | some encryptedData =>
      match decryptData encryptedData (generateFileKey hash md.uuid dbKey) with
      | none => .error .cryptoFailure
      | some d => .ok d

theorem find?_append_singleton {α : Type} (p : α → Bool) (l : List α) (x : α)
    (h : ∀ a ∈ l, ¬ p a) :
    (l ++ [x]).find? p = if p x then some x else none := by
  induction l with
  | nil => cases hp : p x <;> simp [List.find?_cons, hp]
  | cons y ys ih =>
    have hy : p y = false := Bool.eq_false_iff.mpr (h y (by simp))
    simp only [List.cons_append, List.find?_cons, hy, cond_false]
    exact ih fun a ha => h a (by simp [ha])

/-- Looking up a freshly inserted file row by its id finds exactly that row. -/
theorem getFileMetadataByID_append_fresh (files : List FileRec) (r : FileRec) (id : Nat)
    (hid : r.id = id) (hfresh : ∀ q ∈ files, q.id ≠ id) (hdel : r.isDeleted = false) :
    getFileMetadataByID (files ++ [r]) id = some r := by
  rw [getFileMetadataByID, find?_append_singleton]
  · rw [if_pos (by simp [hid, hdel])]
  · intro a ha
    simp only [decide_eq_true_eq, not_and]
    intro h1 _
    exact hfresh a ha h1

/-- C3. A successful `StoreFile` of a plaintext payload followed by
`ExportSingleFile` of the stored record returns bytes equal to the payload, for
every hash function standing for SHA-256: the per-file key
SHA-256(master key ‖ file UUID) is recomputed independently by the export path
(`generateFileKey` is called afresh on both sides and stored in no state
field). -/
theorem storeFile_export_roundtrip (hash : List Nat → List Nat) (dbKey : List Nat)
    (st : VaultState) (fileUUID : String) (nonce : List Nat) (folderId : Nat)
    (fileName mimeType : String) (fileData : List Nat)
    (hnonce : nonce.length = NonceSize)
    (hfresh : ∀ r ∈ st.files, r.id ≠ st.nextFileId) :
    exportSingleFile hash dbKey
      (storeFile hash dbKey st fileUUID nonce folderId fileName mimeType fileData).2
      (storeFile hash dbKey st fileUUID nonce folderId fileName mimeType fileData).1.id
      = .ok fileData := by
  rcases hSF : storeFile hash dbKey st fileUUID nonce folderId fileName mimeType fileData
    with ⟨rc, st2⟩
  simp only [storeFile, Prod.mk.injEq] at hSF
  obtain ⟨hrc, hst2⟩ := hSF
  subst hrc
  subst hst2
  simp only [exportSingleFile]
  rw [getFileMetadataByID_append_fresh st.files _ st.nextFileId rfl hfresh rfl]
  simp only [readAt_writeAt,
    decryptData_encryptData fileData (generateFileKey hash fileUUID dbKey) nonce hnonce]

/-- Witness for C3: storing the payload `[10, 20, 30]` in an empty vault and
exporting it returns `[10, 20, 30]`. -/
theorem storeFile_export_roundtrip_witness :
    exportSingleFile (fun l => l.take 32) [1, 2]
      (storeFile (fun l => l.take 32) [1, 2] ⟨[], [], [], 1, 1⟩ "u" (List.replicate 24 5)
        7 "n" "text/plain" [10, 20, 30]).2
      (storeFile (fun l => l.take 32) [1, 2] ⟨[], [], [], 1, 1⟩ "u" (List.replicate 24 5)
        7 "n" "text/plain" [10, 20, 30]).1.id = .ok [10, 20, 30] :=
  storeFile_export_roundtrip (fun l => l.take 32) [1, 2] ⟨[], [], [], 1, 1⟩ "u"
    (List.replicate 24 5) 7 "n" "text/plain" [10, 20, 30]
    (by simp [NonceSize]) (by simp)

/-! ## Secure deletion (service.DeleteFiles, filestoreutils) -/

inductive DeleteError where
  | noIdsProvided
  | noFilesFound
  deriving DecidableEq, Repr

/-- Embeds `GetFileMetadataForDeletion`: `SELECT ... FROM files WHERE id IN (...) AND
is_deleted = 0`, in rowid order; errors when the id list is empty. -/
def getFileMetadataForDeletion (files : List FileRec) (ids : List Nat) :
    Except DeleteError (List FileRec) :=
  if ids = [] then .error .noIdsProvided
  else .ok (files.filter (fun r => r.id ∈ ids ∧ r.isDeleted = false))

/-- Embeds `service.DeleteFiles`: inside one transaction, load the non-deleted records
among `ids` (error `no files found for deletion` if none, rolling back), mark
each of them `is_deleted = 1` and insert a matching free-space row, commit;
after commit, overwrite each region in the tvault with random bytes (passed in
as `randomBytes offset length`).  An error leaves the state unchanged. -/
def deleteFiles (st : VaultState) (ids : List Nat)
    (randomBytes : Nat → Nat → List Nat) : Except DeleteError VaultState :=
  if ids = [] then .error .noIdsProvided
  else
    let md := st.files.filter (fun r => r.id ∈ ids ∧ r.isDeleted = false)
    if md = [] then .error .noFilesFound
    else
      .ok
        { vault := md.foldl (fun v m => writeAt v m.offset (randomBytes m.offset m.length))
            st.vault
          files := st.files.map
            (fun r => if r.id ∈ md.map FileRec.id then { r with isDeleted := true } else r)
          freeSpaces := st.freeSpaces ++
            md.enum.map (fun p => ⟨st.nextFreeSpaceId + p.1, p.2.offset, p.2.length⟩)
          nextFileId := st.nextFileId
          nextFreeSpaceId := st.nextFreeSpaceId + md.length }

/-- C8. If `DeleteFiles(ids)` succeeds (every listed non-deleted record is
marked deleted), an immediately repeated `DeleteFiles(ids)` finds no remaining
non-deleted record among `ids` and fails with the `no files found` error,
mutating nothing (the failing transaction rolls back before any change). -/
theorem deleteFiles_idempotent (st : VaultState) (ids : List Nat)
    (rb rb2 : Nat → Nat → List Nat) (st2 : VaultState)
    (h : deleteFiles st ids rb = .ok st2) :
    deleteFiles st2 ids rb2 = .error .noFilesFound := by
  rw [deleteFiles] at h
  by_cases hids : ids = []
  · rw [if_pos hids] at h
    cases h
  rw [if_neg hids] at h
  by_cases hmd : st.files.filter (fun r => r.id ∈ ids ∧ r.isDeleted = false) = []
  · rw [if_pos hmd] at h
    cases h
  rw [if_neg hmd] at h
  have hfiles : st2.files = st.files.map
      (fun r => if r.id ∈ (st.files.filter
          (fun r => r.id ∈ ids ∧ r.isDeleted = false)).map FileRec.id
        then { r with isDeleted := true } else r) := by
    cases h
    rfl
  rw [deleteFiles, if_neg hids]
  rw [if_pos ?hempty]
  case hempty =>
    rw [hfiles, List.filter_eq_nil_iff]
    intro r2 hr2
    obtain ⟨r, hr, hmap⟩ := List.mem_map.mp hr2
    by_cases hin : r.id ∈ (st.files.filter
        (fun r => r.id ∈ ids ∧ r.isDeleted = false)).map FileRec.id
    · rw [if_pos hin] at hmap
      rw [← hmap]
      simp
    · rw [if_neg hin] at hmap
      rw [← hmap]
      simp only [decide_eq_true_eq, not_and]
      intro hrid hrdel
      exact hin (List.mem_map.mpr ⟨r, List.mem_filter.mpr ⟨hr, by simp [hrid, hrdel]⟩, rfl⟩)

/-- Witness for C8: deleting the only file once succeeds; deleting again
returns the `no files found` error. -/
theorem deleteFiles_idempotent_witness :
    deleteFiles ⟨[], [⟨1, "u", "n", 3, "m", 1, 0, 5, true⟩], [⟨1, 0, 5⟩], 2, 2⟩
      [1] (fun _ _ => []) = .error .noFilesFound :=
  deleteFiles_idempotent ⟨[], [⟨1, "u", "n", 3, "m", 1, 0, 5, false⟩], [], 2, 1⟩
    [1] (fun _ _ => []) (fun _ _ => [])
    ⟨[], [⟨1, "u", "n", 3, "m", 1, 0, 5, true⟩], [⟨1, 0, 5⟩], 2, 2⟩
    (by rfl)

/-! ## Registration session manager (core/modules/registration, src/unnamed/part_005) -/

inductive RegError where
  | tooManyAttempts
  | invalidPin
  deriving DecidableEq, Repr

/-- State of the registration service: live session ids, the current PIN and
the per-nonce failed-attempt counters (`rateLimiter`); a missing entry reads as
0, like a Go map. -/
structure RegState where
  sessions : List String
  pinCode : String
  rateLimiter : List (String × Nat)
  deriving DecidableEq, Repr

/-- Embeds `s.rateLimiter[nonce]` (Go map read: zero value when absent). -/
def rlLookup (rl : List (String × Nat)) (nonce : String) : Nat :=
  match rl.find? (fun p => p.1 = nonce) with
  | some p => p.2
  | none => 0

/-- Embeds `s.rateLimiter[nonce]++`. -/
def rlIncrement (rl : List (String × Nat)) (nonce : String) : List (String × Nat) :=
  (nonce, rlLookup rl nonce + 1) :: rl.filter (fun p => p.1 ≠ nonce)

/-- Embeds `delete(s.rateLimiter, nonce)`. -/
def rlDelete (rl : List (String × Nat)) (nonce : String) : List (String × Nat) :=
  rl.filter (fun p => p.1 ≠ nonce)

/-- Embeds `service.CreateSession`: fail with `too many invalid attempts` when the
nonce's counter is at least 3; on a wrong PIN increment the counter and fail
with `Invalid pin`; otherwise record a session under a fresh random id (passed
in) and delete the nonce's counter. -/
def createSession (st : RegState) (pin nonce freshId : String) :
    Except RegError String × RegState :=
  if 3 ≤ rlLookup st.rateLimiter nonce then (.error .tooManyAttempts, st)
  else if pin ≠ st.pinCode then
    (.error .invalidPin, { st with rateLimiter := rlIncrement st.rateLimiter nonce })
  else
    (.ok freshId,
      { st with sessions := freshId :: st.sessions
                rateLimiter := rlDelete st.rateLimiter nonce })

/-- Embeds `service.SetPINCode`. -/
def setPINCode (st : RegState) (pin : String) : RegState := { st with pinCode := pin }

/-- A sequence of `CreateSession` calls, each `(pin, nonce, freshId)`, threaded
through the state; returns the list of per-call results and the final state. -/
def createSessionTrace (st : RegState) (calls : List (String × String × String)) :
    List (Except RegError String) × RegState :=
  match calls with
  | [] => ([], st)
  | (pin, nonce, fid) :: rest =>
    let r := createSession st pin nonce fid
    let t := createSessionTrace r.2 rest
    (r.1 :: t.1, t.2)

theorem rlLookup_cons (p : String × Nat) (tl : List (String × Nat)) (nonce : String) :
    rlLookup (p :: tl) nonce = if p.1 = nonce then p.2 else rlLookup tl nonce := by
  by_cases h : p.1 = nonce <;> simp [rlLookup, List.find?_cons, h]

theorem rlLookup_filter_ne (rl : List (String × Nat)) (nonce n' : String) (h : nonce ≠ n') :
    rlLookup (rl.filter (fun p => p.1 ≠ n')) nonce = rlLookup rl nonce := by
  induction rl with
  | nil => rfl
  | cons p tl ih =>
    by_cases hp : p.1 = n'
    · have h1 : (p :: tl).filter (fun q => q.1 ≠ n') = tl.filter (fun q => q.1 ≠ n') := by
        simp [List.filter_cons, hp]
      rw [h1, ih, rlLookup_cons, if_neg (by rw [hp]; exact fun he => h he.symm)]
    · have h1 : (p :: tl).filter (fun q => q.1 ≠ n') = p :: tl.filter (fun q => q.1 ≠ n') := by
        simp [List.filter_cons, hp]
      rw [h1, rlLookup_cons, rlLookup_cons, ih]

theorem rlLookup_rlIncrement_self (rl : List (String × Nat)) (nonce : String) :
    rlLookup (rlIncrement rl nonce) nonce = rlLookup rl nonce + 1 := by
  rw [rlIncrement, rlLookup_cons, if_pos rfl]

theorem rlLookup_rlIncrement_ne (rl : List (String × Nat)) (nonce n' : String) (h : nonce ≠ n') :
    rlLookup (rlIncrement rl n') nonce = rlLookup rl nonce := by
  rw [rlIncrement, rlLookup_cons, if_neg (fun he => h he.symm)]
  exact rlLookup_filter_ne rl nonce n' h

theorem rlLookup_rlDelete_ne (rl : List (String × Nat)) (nonce n' : String) (h : nonce ≠ n') :
    rlLookup (rlDelete rl n') nonce = rlLookup rl nonce :=
  rlLookup_filter_ne rl nonce n' h

/-- Once a nonce's counter is at least 3, no `CreateSession` call (for any
nonce and PIN) brings it back below 3. -/
theorem createSession_preserves_ge3 (st : RegState) (pin n' fid nonce : String)
    (h : 3 ≤ rlLookup st.rateLimiter nonce) :
    3 ≤ rlLookup ((createSession st pin n' fid).2).rateLimiter nonce := by
  rw [createSession]
  by_cases h1 : 3 ≤ rlLookup st.rateLimiter n'
  · rw [if_pos h1]
    exact h
  rw [if_neg h1]
  have hne : nonce ≠ n' := by
    intro he
    rw [he] at h
    omega
  by_cases h2 : pin ≠ st.pinCode
  · rw [if_pos h2]
    simpa [rlLookup_rlIncrement_ne _ _ _ hne] using h
  · rw [if_neg h2]
    simpa [rlLookup_rlDelete_ne _ _ _ hne] using h

/-- C4. (i) With the counter for a nonce at 3 or more, every
`CreateSession` call for that nonce fails with `TooManyAttempts` and changes
nothing, regardless of the supplied PIN; (ii) a wrong-PIN call below the limit
fails with `InvalidPin` and increments exactly that nonce's counter; (iii) a
correct-PIN call below the limit succeeds and clears the counter; (iv) three
consecutive wrong-PIN calls for a nonce starting from a clear counter each fail
with `InvalidPin` and leave the counter at 3; (v) from a counter at 3 or more,
every subsequent call for that nonce in any further call sequence (arbitrary
interleaved nonces and PINs) fails with `TooManyAttempts`, until the manager is
reset. -/
theorem createSession_rate_limit :
    (∀ (st : RegState) (pin nonce fid : String), 3 ≤ rlLookup st.rateLimiter nonce →
      createSession st pin nonce fid = (.error .tooManyAttempts, st)) ∧
    (∀ (st : RegState) (pin nonce fid : String), rlLookup st.rateLimiter nonce < 3 →
      pin ≠ st.pinCode →
      createSession st pin nonce fid =
        (.error .invalidPin, { st with rateLimiter := rlIncrement st.rateLimiter nonce }) ∧
      rlLookup (rlIncrement st.rateLimiter nonce) nonce = rlLookup st.rateLimiter nonce + 1) ∧
    (∀ (st : RegState) (pin nonce fid : String), rlLookup st.rateLimiter nonce < 3 →
      pin = st.pinCode →
      createSession st pin nonce fid =
        (.ok fid, { st with sessions := fid :: st.sessions
                            rateLimiter := rlDelete st.rateLimiter nonce }) ∧
      rlLookup (rlDelete st.rateLimiter nonce) nonce = 0) ∧
    (∀ (st : RegState) (nonce p1 p2 p3 f1 f2 f3 : String),
      rlLookup st.rateLimiter nonce = 0 →
      p1 ≠ st.pinCode → p2 ≠ st.pinCode → p3 ≠ st.pinCode →
      (createSessionTrace st [(p1, nonce, f1), (p2, nonce, f2), (p3, nonce, f3)]).1 =
        [.error .invalidPin, .error .invalidPin, .error .invalidPin] ∧
      rlLookup (createSessionTrace st
        [(p1, nonce, f1), (p2, nonce, f2), (p3, nonce, f3)]).2.rateLimiter nonce = 3) ∧
    (∀ (st : RegState) (nonce : String), 3 ≤ rlLookup st.rateLimiter nonce →
      ∀ (calls : List (String × String × String)) (i : Nat) (pin fid : String),
        calls.get? i = some (pin, nonce, fid) →
        (createSessionTrace st calls).1.get? i = some (.error .tooManyAttempts)) := by
  have hTooMany : ∀ (st : RegState) (pin nonce fid : String),
      3 ≤ rlLookup st.rateLimiter nonce →
      createSession st pin nonce fid = (.error .tooManyAttempts, st) := by
    intro st pin nonce fid h
    rw [createSession, if_pos h]
  have hWrong : ∀ (st : RegState) (pin nonce fid : String),
      rlLookup st.rateLimiter nonce < 3 → pin ≠ st.pinCode →
      createSession st pin nonce fid =
        (.error .invalidPin, { st with rateLimiter := rlIncrement st.rateLimiter nonce }) := by
    intro st pin nonce fid h hp
    rw [createSession, if_neg (by omega), if_pos hp]
  refine ⟨hTooMany, ?_, ?_, ?_, ?_⟩
  · intro st pin nonce fid h hp
    exact ⟨hWrong st pin nonce fid h hp, rlLookup_rlIncrement_self _ _⟩
  · intro st pin nonce fid h hp
    constructor
    · rw [createSession, if_neg (by omega), if_neg (by simp [hp])]
    · rw [rlDelete]
      induction st.rateLimiter with
      | nil => rfl
      | cons p tl ih =>
        by_cases hq : p.1 = nonce
        · simpa [List.filter_cons, hq] using ih
        · simpa [List.filter_cons, hq, rlLookup_cons] using ih
  · intro st nonce p1 p2 p3 f1 f2 f3 h0 h1 h2 h3
    have e1 := hWrong st p1 nonce f1 (by omega) h1
    have l1 : rlLookup (rlIncrement st.rateLimiter nonce) nonce = 1 := by
      rw [rlLookup_rlIncrement_self, h0]
    have e2 := hWrong { st with rateLimiter := rlIncrement st.rateLimiter nonce }
      p2 nonce f2 (by simp [l1]) h2
    have l2 : rlLookup (rlIncrement (rlIncrement st.rateLimiter nonce) nonce) nonce = 2 := by
      rw [rlLookup_rlIncrement_self, l1]
    have e3 := hWrong
      { st with rateLimiter := rlIncrement (rlIncrement st.rateLimiter nonce) nonce }
      p3 nonce f3 (by simp [l2]) h3
    have l3 : rlLookup (rlIncrement (rlIncrement (rlIncrement st.rateLimiter nonce) nonce)
        nonce) nonce = 3 := by
      rw [rlLookup_rlIncrement_self, l2]
    constructor
    · simp only [createSessionTrace, e1, e2, e3]
    · simp only [createSessionTrace, e1, e2, e3]
      exact l3
  · intro st nonce h calls
    induction calls generalizing st with
    | nil => intro i pin fid hi; simp at hi
    | cons c rest ih =>
      intro i pin fid hi
      match i, hi with
      | 0, hi =>
        simp only [List.get?] at hi
        obtain rfl : c = (pin, nonce, fid) := by simpa using hi
        simp only [createSessionTrace, hTooMany st pin nonce fid h, List.get?]
      | Nat.succ j, hi =>
        simp only [List.get?] at hi
        have hpres := createSession_preserves_ge3 st c.1 c.2.1 c.2.2 nonce h
        have := ih _ hpres j pin fid hi
        match c with
        | (cp, cn, cf) =>
          simpa [createSessionTrace, List.get?] using this

/-- Witness for C4: the spec's PIN-pairing scenario — PIN "483920"; with the
counter for nonce "N" already at 3 after three wrong attempts, even the correct
PIN is rejected with `TooManyAttempts`. -/
theorem createSession_rate_limit_witness :
    createSession ⟨[], "483920", [("N", 3)]⟩ "483920" "N" "sid" =
      (.error .tooManyAttempts, ⟨[], "483920", [("N", 3)]⟩) :=
  createSession_rate_limit.1 ⟨[], "483920", [("N", 3)]⟩ "483920" "N" "sid" (by
    simp [rlLookup, List.find?_cons])

/-! ## HTTPS server service (backend/core/modules/server/service.go) -/

def PIN_LEN : Nat := 6

/-- Embeds `strings.Join(l, "")`. -/
def strJoin (l : List String) : String :=
  l.foldl (fun a b => a ++ b) ""

/-- Embeds `generateRandomPIN`: `PIN_LEN` draws of `crypto/rand.Int` below 10, each
rendered in decimal with `strconv.FormatInt` and joined; the random draws are
passed in as `sample`. -/
def generateRandomPIN (sample : Nat → Nat) : String :=
  strJoin ((List.range PIN_LEN).map (fun i => toString (sample i)))

/-- The server service state relevant to startup: the running flag and the
current PIN. -/
structure ServerState where
  running : Bool
  pin : String
  deriving DecidableEq, Repr

/-- Embeds `service.Start` (PIN installation path): refuse if already running,
otherwise generate a fresh PIN, install it in the registration service via
`SetPINCode`, and mark the server running.  TLS setup and the listener are
external effects outside the model. -/
def serverStart (srv : ServerState) (reg : RegState) (sample : Nat → Nat) :
    Except String (ServerState × RegState) :=
  if srv.running then .error "server is already running"
  else
    let pin := generateRandomPIN sample
    .ok (⟨true, pin⟩, setPINCode reg pin)

theorem foldl_append_data (l : List String) (a : String) :
    (l.foldl (fun x y => x ++ y) a).data = a.data ++ (l.map String.data).flatten := by
  induction l generalizing a with
  | nil => simp
  | cons s tl ih =>
    simp only [List.foldl_cons, ih, List.map_cons, List.flatten_cons, String.data_append]
    simp [List.append_assoc]

theorem flatten_map_singleton {α β : Type} (l : List α) (g : α → β) :
    (l.map (fun a => [g a])).flatten = l.map g := by
  induction l with
  | nil => rfl
  | cons x xs ih => simp [ih]

theorem toString_nat_digit (d : Nat) (h : d < 10) :
    (toString d).data = [Nat.digitChar d] := by
  interval_cases d <;> rfl

theorem digitChar_isDigit (d : Nat) (h : d < 10) : (Nat.digitChar d).isDigit = true := by
  interval_cases d <;> rfl

/-- C9. `generateRandomPIN` returns a string of exactly 6 characters, each
a decimal digit, and a successful `Start` installs that freshly generated
string as the registration service's current PIN (via `SetPINCode`, before the
listener accepts requests). -/
theorem generateRandomPIN_start (sample : Nat → Nat) (srv : ServerState) (reg : RegState)
    (hs : ∀ i, i < PIN_LEN → sample i < 10) (hrun : srv.running = false) :
    (generateRandomPIN sample).data.length = 6 ∧
    (∀ c ∈ (generateRandomPIN sample).data, c.isDigit = true) ∧
    serverStart srv reg sample =
      .ok (⟨true, generateRandomPIN sample⟩,
        { reg with pinCode := generateRandomPIN sample }) := by
  have hdata : (generateRandomPIN sample).data =
      (List.range PIN_LEN).map (fun i => Nat.digitChar (sample i)) := by
    rw [generateRandomPIN, strJoin, foldl_append_data]
    rw [List.map_map]
    have hcongr : ((List.range PIN_LEN).map (String.data ∘ fun i => toString (sample i))) =
        (List.range PIN_LEN).map (fun i => [Nat.digitChar (sample i)]) := by
      refine List.map_congr_left ?_
      intro i hi
      exact toString_nat_digit (sample i) (hs i (List.mem_range.mp hi))
    rw [hcongr, flatten_map_singleton]
    rfl
  refine ⟨?_, ?_, ?_⟩
  · rw [hdata]
    simp [PIN_LEN]
  · intro c hc
    rw [hdata] at hc
    obtain ⟨i, hi, rfl⟩ := List.mem_map.mp hc
    exact digitChar_isDigit (sample i) (hs i (List.mem_range.mp hi))
  · rw [serverStart, if_neg (by rw [hrun]; exact Bool.false_ne_true)]
    rfl

/-- Witness for C9 at the identity sampler: the PIN is "012345", and `Start`
installs it. -/
theorem generateRandomPIN_start_witness :
    (generateRandomPIN (fun i => i)).data.length = 6 ∧
    (∀ c ∈ (generateRandomPIN (fun i => i)).data, c.isDigit = true) ∧
    serverStart ⟨false, ""⟩ ⟨[], "", []⟩ (fun i => i) =
      .ok (⟨true, generateRandomPIN (fun i => i)⟩,
        { sessions := [], pinCode := generateRandomPIN (fun i => i), rateLimiter := [] }) :=
  generateRandomPIN_start (fun i => i) ⟨false, ""⟩ ⟨[], "", []⟩
    (fun i hi => by have h6 : i < 6 := hi; show i < 10; omega) rfl

/-! ## Export file extensions (filestoreutils: GetFileExtensionFromMimeType,
EnsureFileExtension) -/

/-- Scan of `path/filepath.Ext`, over the reversed character list: walk from
the end of the path; a separator means no extension, a dot returns the dot and
everything after it. -/
def filepathExtAux : List Char → List Char → List Char
  | [], _ => []
  | c :: rest, acc =>
    if c = '/' then []
    else if c = '.' then '.' :: acc
    else filepathExtAux rest (c :: acc)

/-- Embeds `path/filepath.Ext`. -/
def filepathExt (s : String) : String :=
  ⟨filepathExtAux s.data.reverse []⟩

/-- The prefixes tried by the default branch of `GetFileExtensionFromMimeType`. -/
def mimePrefixes : List String := ["image/", "video/", "audio/", "text/"]

/-- The default branch: `strings.CutPrefix` against each prefix in order,
returning `"." + subtype` on the first match, else `".file"`. -/
def cutPrefixExt (m : String) : String :=
  match mimePrefixes.find? (fun p => p.data.isPrefixOf m.data) with
  | some p => "." ++ String.mk (m.data.drop p.data.length)
  | none => ".file"

/-- Embeds `GetFileExtensionFromMimeType`: the mime-type switch of the source. -/
def getFileExtensionFromMimeType (m : String) : String :=
  if m = "image/jpeg" ∨ m = "image/jpg" then ".jpg"
  else if m = "image/png" then ".png"
  else if m = "image/gif" then ".gif"
  else if m = "image/webp" then ".webp"
  else if m = "image/tiff" then ".tiff"
  else if m = "image/bmp" then ".bmp"
  else if m = "image/heic" then ".heic"
  else if m = "image/heif" then ".heif"
  else if m = "video/mp4" then ".mp4"
  else if m = "video/avi" then ".avi"
  else if m = "video/mov" ∨ m = "video/quicktime" then ".mov"
  else if m = "video/wmv" then ".wmv"
  else if m = "video/flv" then ".flv"
  else if m = "video/webm" then ".webm"
  else if m = "video/3gpp" then ".3gp"
  else if m = "audio/mpeg" ∨ m = "audio/mp3" then ".mp3"
  else if m = "audio/wav" then ".wav"
  else if m = "audio/aac" then ".aac"
  else if m = "audio/ogg" then ".ogg"
  else if m = "audio/flac" then ".flac"
  else if m = "audio/m4a" then ".m4a"
  else if m = "application/pdf" then ".pdf"
  else if m = "application/msword" then ".doc"
  else if m = "application/vnd.openxmlformats-officedocument.wordprocessingml.document" then ".docx"
  else if m = "application/vnd.ms-excel" then ".xls"
  else if m = "application/vnd.openxmlformats-officedocument.spreadsheetml.sheet" then ".xlsx"
  else if m = "application/vnd.ms-powerpoint" then ".ppt"
  else if m = "application/vnd.openxmlformats-officedocument.presentationml.presentation" then ".pptx"
  else if m = "text/plain" then ".txt"
  else if m = "text/html" then ".html"
  else if m = "text/css" then ".css"
  else if m = "application/javascript" ∨ m = "text/javascript" then ".js"
  else if m = "application/json" then ".json"
  else if m = "application/xml" ∨ m = "text/xml" then ".xml"
  else if m = "application/zip" then ".zip"
  else if m = "application/x-rar-compressed" then ".rar"
  else if m = "application/x-tar" then ".tar"
  else if m = "application/gzip" then ".gz"
  else cutPrefixExt m

/-- Embeds `EnsureFileExtension`: keep the name if it already has an extension,
otherwise append one derived from the mime type. -/
def ensureFileExtension (fileName mimeType : String) : String :=
  if filepathExt fileName ≠ "" then fileName
  else fileName ++ getFileExtensionFromMimeType mimeType

theorem headDot_ite (c : Prop) [Decidable c] (a b : String)
    (ha : a.data.head? = some '.') (hb : b.data.head? = some '.') :
    (if c then a else b).data.head? = some '.' := by
  by_cases h : c
  · rw [if_pos h]
    exact ha
  · rw [if_neg h]
    exact hb

theorem getFileExtensionFromMimeType_head (m : String) :
    ∃ rest, (getFileExtensionFromMimeType m).data = '.' :: rest := by
  have hh : (getFileExtensionFromMimeType m).data.head? = some '.' := by
    rw [getFileExtensionFromMimeType]
    repeat refine headDot_ite _ _ _ rfl ?_
    rw [cutPrefixExt]
    rcases h : mimePrefixes.find? (fun p => p.data.isPrefixOf m.data) with _ | p
    · rw [h]
      rfl
    · rw [h]
      rfl
  rcases hd : (getFileExtensionFromMimeType m).data with _ | ⟨c, rest⟩
  · rw [hd] at hh
    simp at hh
  · rw [hd] at hh
    simp only [List.head?_cons, Option.some.injEq] at hh
    exact ⟨rest, by rw [hh]⟩

theorem filepathExtAux_dot (l1 l2 acc : List Char) (h : '/' ∉ l1) :
    filepathExtAux (l1 ++ '.' :: l2) acc ≠ [] := by
  induction l1 generalizing acc with
  | nil => simp [filepathExtAux]
  | cons c tl ih =>
    simp only [List.mem_cons, not_or] at h
    simp only [List.cons_append, filepathExtAux]
    rw [if_neg (fun hc => h.1 hc.symm)]
    by_cases hc : c = '.'
    · rw [if_pos hc]
      simp
    · rw [if_neg hc]
      exact ih _ h.2

/-- C10 counterexample. For a file name without extension and the mime type
`image/x/y`, the default branch appends `.x/y`, and the exported name
`photo.x/y` has an empty `filepath.Ext` — so "every exported filename has a
non-empty extension" fails when the extracted mime subtype itself contains a
path separator. -/
theorem ensureFileExtension_counterexample :
    ensureFileExtension "photo" "image/x/y" = "photo.x/y" ∧
    filepathExt "photo.x/y" = "" ∧ filepathExt "photo" = "" :=
  ⟨by decide, by decide, by decide⟩

/-- C10 (amended). `EnsureFileExtension` returns `fileName` unchanged when
it already has a non-empty extension, and otherwise appends
`GetFileExtensionFromMimeType(mimeType)`, which for every input is a non-empty
string beginning with a dot (falling back to `.file`); the resulting name has a
non-empty `filepath.Ext` extension provided the appended string contains no
path separator — which a malformed mime subtype such as `image/x/y` can
introduce. -/
theorem ensureFileExtension_spec :
    (∀ m : String, ∃ rest, (getFileExtensionFromMimeType m).data = '.' :: rest) ∧
    (∀ fileName mimeType : String, filepathExt fileName ≠ "" →
      ensureFileExtension fileName mimeType = fileName) ∧
    (∀ fileName mimeType : String, filepathExt fileName = "" →
      ensureFileExtension fileName mimeType =
        fileName ++ getFileExtensionFromMimeType mimeType) ∧
    (∀ fileName mimeType : String, filepathExt fileName = "" →
      '/' ∉ (getFileExtensionFromMimeType mimeType).data →
      filepathExt (ensureFileExtension fileName mimeType) ≠ "") := by
  refine ⟨getFileExtensionFromMimeType_head, ?_, ?_, ?_⟩
  · intro fileName mimeType h
    rw [ensureFileExtension, if_pos h]
  · intro fileName mimeType h
    rw [ensureFileExtension, if_neg (by simp [h])]
  · intro fileName mimeType h hslash
    obtain ⟨rest, he⟩ := getFileExtensionFromMimeType_head mimeType
    rw [he, List.mem_cons, not_or] at hslash
    have hrest : '/' ∉ rest.reverse := by
      rw [List.mem_reverse]
      exact hslash.2
    rw [ensureFileExtension, if_neg (by simp [h])]
    have hdata : (fileName ++ getFileExtensionFromMimeType mimeType).data.reverse =
        rest.reverse ++ '.' :: fileName.data.reverse := by
      rw [String.data_append, he, List.reverse_append, List.reverse_cons, List.append_assoc]
      rfl
    rw [filepathExt, hdata]
    intro hcontra
    have hnil : filepathExtAux (rest.reverse ++ '.' :: fileName.data.reverse) [] = [] := by
      have := congrArg String.data hcontra
      simpa using this
    exact filepathExtAux_dot rest.reverse fileName.data.reverse [] hrest hnil

/-- Witness for C10 at concrete inputs: a name with an extension is kept, a
name without one gets `.txt` appended, and the result has a non-empty
extension. -/
theorem ensureFileExtension_spec_witness :
    ensureFileExtension "a.png" "text/plain" = "a.png" ∧
    ensureFileExtension "a" "text/plain" = "a" ++ getFileExtensionFromMimeType "text/plain" ∧
    filepathExt (ensureFileExtension "a" "text/plain") ≠ "" :=
  ⟨ensureFileExtension_spec.2.1 "a.png" "text/plain" (by decide),
   ensureFileExtension_spec.2.2.1 "a" "text/plain" (by decide),
   ensureFileExtension_spec.2.2.2 "a" "text/plain" (by decide) (by decide)⟩

/-! ## Password creation (core/modules/auth service, src/unnamed/part_006) -/

inductive AuthError where
  | passwordTooShort
  deriving DecidableEq, Repr

/-- Embeds `service.CreatePassword`: reject passwords shorter than 6 bytes with
`ErrPasswordTooShort` before anything is written; otherwise generate the master
key and salt (random inputs), derive the Argon2id wrap key (external,
`argonHash` input), wrap the master key with `EncryptData`, and write the
tvault header, returned here as the resulting header bytes.  The source
performs no maximum-length check: `PasswordMaxLength` and `ErrPasswordTooLong`
are declared in constants/auth.go but never referenced. -/
def createPassword (password : List Nat) (dbKey argonSalt argonHash nonce : List Nat) :
    Except AuthError (List Nat) :=
  if password.length < 6 then .error .passwordTooShort
  else .ok (initializeTVaultHeader argonSalt (encryptData dbKey argonHash nonce))

/-- C7 (code behaviour). The minimum is enforced: any password shorter
than 6 bytes fails with `PasswordTooShort` and no header is produced.  The
maximum is not: a password of 1001 bytes — beyond `PasswordMaxLength = 1000` —
is accepted, and the header is written; nothing in `CreatePassword` consults
`PasswordMaxLength` or returns `ErrPasswordTooLong`. -/
theorem createPassword_max_not_enforced :
    (∀ (pw dbKey salt hash nonce : List Nat), pw.length < 6 →
      createPassword pw dbKey salt hash nonce = .error .passwordTooShort) ∧
    PasswordMaxLength < (List.replicate 1001 97).length ∧
    (∀ (dbKey salt hash nonce : List Nat),
      createPassword (List.replicate 1001 97) dbKey salt hash nonce =
        .ok (initializeTVaultHeader salt (encryptData dbKey hash nonce))) := by
  refine ⟨?_, by simp [PasswordMaxLength], ?_⟩
  · intro pw dbKey salt hash nonce h
    rw [createPassword, if_pos h]
  · intro dbKey salt hash nonce
    rw [createPassword, if_neg (by simp)]

/-- Witness for C7: the empty password is rejected as too short; the 1001-byte
password is accepted. -/
theorem createPassword_max_not_enforced_witness :
    createPassword [] [1] [2] [3] [4] = .error .passwordTooShort ∧
    createPassword (List.replicate 1001 97) [1] [2] [3] [4] =
      .ok (initializeTVaultHeader [2] (encryptData [1] [3] [4])) :=
  ⟨createPassword_max_not_enforced.1 [] [1] [2] [3] [4] (by simp),
   createPassword_max_not_enforced.2.2 [1] [2] [3] [4]⟩

/-! ## Transfer coordinator (backend/core/modules/transfer/service.go) -/

def REFRESH_TIMEOUT_MIN : Nat := 45

inductive TStatus where
  | pending
  | completed
  | failed
  deriving DecidableEq, Repr

/-- A per-file transfer (`Transfer` in models.go); the file-info fields not
consulted by the upload path are omitted. -/
structure PerFileTransfer where
  transmissionID : String
  sessionID : String
  status : TStatus
  deriving DecidableEq, Repr

/-- An active transfer session (`TransferSession`), stored in the source in
the same `sync.Map` under the `sessionID + "_session"` key; modelled as a
separate map keyed by the session id. -/
structure TransferSession where
  sessionID : String
  folderID : Nat
  fileIDs : List String
  seenTransmissions : List String
  expiresAt : Nat
  deriving DecidableEq, Repr

/-- The transfer service state: the registration service's live session ids
(behind the `sessionIsValid` / `forgetSession` capabilities) and the two keyed
families of `s.transfers` entries. -/
structure TransferState where
  validSessions : List String
  transfers : List (String × PerFileTransfer)
  sessions : List (String × TransferSession)
  deriving DecidableEq, Repr

/-- Go map / `sync.Map` read. -/
def mapLookup {α : Type} (l : List (String × α)) (k : String) : Option α :=
  match l.find? (fun p => p.1 = k) with
  | some p => some p.2
  | none => none

/-- Go map / `sync.Map` delete. -/
def mapErase {α : Type} (l : List (String × α)) (k : String) : List (String × α) :=
  l.filter (fun p => p.1 ≠ k)

/-- Go map / `sync.Map` store. -/
def mapInsert {α : Type} (l : List (String × α)) (k : String) (v : α) :
    List (String × α) :=
  (k, v) :: mapErase l k

/-- Embeds `service.ForgetTransfer`: delete the per-file entry and, when it exists,
the `_session` entry of its session. -/
def forgetTransfer (st : TransferState) (fileID : String) : TransferState :=
  match mapLookup st.transfers fileID with
  | some tr =>
    { st with sessions := mapErase st.sessions tr.sessionID
              transfers := mapErase st.transfers fileID }
  | none => { st with transfers := mapErase st.transfers fileID }

/-- Embeds `service.endTransfer`: forget every per-file transfer of the session and
clear the registration entry via the `forgetSession` capability. -/
def endTransfer (st : TransferState) (sessionID : String) : TransferState :=
  match mapLookup st.sessions sessionID with
  | some sess =>
    let st1 := sess.fileIDs.foldl (fun acc fid => forgetTransfer acc fid) st
    { st1 with validSessions := st1.validSessions.filter (fun s => s ≠ sessionID) }
  | none => { st with validSessions := st.validSessions.filter (fun s => s ≠ sessionID) }

inductive UploadError where
  | invalidSession
  | transferNotFound
  | transferComplete
  | invalidTransmission
  | storeFailed
  | nilSessionPanic
  deriving DecidableEq, Repr

/-- Mark the transfer completed or failed according to the `StoreFile`
outcome. -/
def markStatus (tr : PerFileTransfer) (storeOk : Bool) : PerFileTransfer :=
  { tr with status := if storeOk then .completed else .failed }

/-- Store the updated per-file transfer back (`s.transfers.Store`). -/
def storeResult (st : TransferState) (fileID : String) (tr : PerFileTransfer)
    (storeOk : Bool) : TransferState :=
  { st with transfers := mapInsert st.transfers fileID (markStatus tr storeOk) }

/-- The `resolveLoop`: every expected file is in a terminal state (a missing
entry is skipped, hence counts as resolved). -/
def allResolved (transfers : List (String × PerFileTransfer)) (fids : List String) : Bool :=
  fids.all (fun fid =>
    match mapLookup transfers fid with
    | some t => decide (t.status = .completed ∨ t.status = .failed)
    | none => true)

/-- Record a transmission id as seen (`session.SeenTransmissions[...] = true`). -/
def seenInsert (sess : TransferSession) (tid : String) : TransferSession :=
  { sess with seenTransmissions := tid :: sess.seenTransmissions }

/-- Refresh the rolling expiry after an accepted upload. -/
def refreshSession (sess : TransferSession) (tid : String) (now : Nat) : TransferSession :=
  { seenInsert sess tid with expiresAt := now + REFRESH_TIMEOUT_MIN }

/-- Replace the sessions map of a transfer state. -/
def withSessions (st : TransferState) (s : List (String × TransferSession)) : TransferState :=
  { st with sessions := s }

/-- The expiry path: the seen-set insertion already happened on the shared
session struct, then `ForgetTransfer(fileID)` and `forgetSession`. -/
def applyExpiry (st : TransferState) (sessionID : String) (sess : TransferSession)
    (tid fileID : String) : TransferState :=
  let st2 := forgetTransfer
    (withSessions st (mapInsert st.sessions sessionID (seenInsert sess tid))) fileID
  { st2 with validSessions := st2.validSessions.filter (fun s => s ≠ sess.sessionID) }

/-- The tail of `HandleUpload` after the `StoreFile` call: update the status,
run the `resolveLoop` over the ongoing session (a missing `_session` entry
dereferences a nil pointer in the source — modelled as `nilSessionPanic`), tear
the session down when everything is resolved, and return. -/
def uploadFinish (st : TransferState) (storeOk : Bool) (sessionID fileID : String)
    (tr : PerFileTransfer) (ongoing : Option TransferSession) :
    Except UploadError Unit × TransferState :=
  match ongoing with
  | none => (.error .nilSessionPanic, storeResult st fileID tr storeOk)
  | some sess =>
    if allResolved (storeResult st fileID tr storeOk).transfers sess.fileIDs then
      ((if storeOk then .ok () else .error .storeFailed),
        endTransfer (storeResult st fileID tr storeOk) sessionID)
    else
      ((if storeOk then .ok () else .error .storeFailed), storeResult st fileID tr storeOk)

/-- Embeds `service.HandleUpload`: validation chain (session validity, transfer
lookup, session match, completion, transmission id match, one-shot seen check,
expiry), then store (`storeOk` is the `StoreFile` outcome) and the resolution
check.  `now` is the clock reading. -/
def handleUpload (st : TransferState) (now : Nat) (storeOk : Bool)
    (sessionID transmissionID fileID : String) :
    Except UploadError Unit × TransferState :=
  if sessionID ∉ st.validSessions then (.error .invalidSession, st)
  else
    match mapLookup st.transfers fileID with
    | none => (.error .transferNotFound, st)
    | some tr =>
      if tr.sessionID ≠ sessionID then (.error .invalidSession, st)
      else if tr.status = .completed then (.error .transferComplete, st)
      else if tr.transmissionID ≠ transmissionID then (.error .invalidTransmission, st)
      else
        match mapLookup st.sessions sessionID with
        | some sess =>
          if transmissionID ∈ sess.seenTransmissions then (.error .invalidTransmission, st)
          else if sess.expiresAt < now then
            (.error .invalidSession, applyExpiry st sessionID sess transmissionID fileID)
          else
            uploadFinish
              (withSessions st
                (mapInsert st.sessions sessionID (refreshSession sess transmissionID now)))
              storeOk sessionID fileID tr (some (refreshSession sess transmissionID now))
        | none => uploadFinish st storeOk sessionID fileID tr none

theorem mapLookup_mapInsert_self {α : Type} (l : List (String × α)) (k : String) (v : α) :
    mapLookup (mapInsert l k v) k = some v := by
  simp [mapLookup, mapInsert, List.find?_cons]

theorem forgetTransfer_validSessions (st : TransferState) (fid : String) :
    (forgetTransfer st fid).validSessions = st.validSessions := by
  rw [forgetTransfer]
  rcases mapLookup st.transfers fid with _ | tr <;> rfl

theorem foldl_forgetTransfer_validSessions (fids : List String) (st : TransferState) :
    (fids.foldl (fun acc fid => forgetTransfer acc fid) st).validSessions =
      st.validSessions := by
  induction fids generalizing st with
  | nil => rfl
  | cons f tl ih =>
    rw [List.foldl_cons, ih, forgetTransfer_validSessions]

theorem endTransfer_validSessions (st : TransferState) (sid : String) :
    (endTransfer st sid).validSessions =
      st.validSessions.filter (fun s => s ≠ sid) := by
  rw [endTransfer]
  rcases mapLookup st.sessions sid with _ | sess
  · rfl
  · simp only [foldl_forgetTransfer_validSessions]

/-- Necessary conditions for `HandleUpload` to succeed: the session must be
live, its `_session` entry must exist, and the transmission id must not yet be
in the seen set. -/
theorem handleUpload_ok_necessary (st : TransferState) (now : Nat) (okb : Bool)
    (sid tid fid : String)
    (h : (handleUpload st now okb sid tid fid).1 = .ok ()) :
    sid ∈ st.validSessions ∧
    ∃ sess, mapLookup st.sessions sid = some sess ∧ tid ∉ sess.seenTransmissions := by
  rw [handleUpload] at h
  by_cases h1 : sid ∉ st.validSessions
  · rw [if_pos h1] at h
    simp at h
  rw [if_neg h1] at h
  rcases h2 : mapLookup st.transfers fid with _ | tr
  · simp only [h2] at h
    simp at h
  simp only [h2] at h
  by_cases h3 : tr.sessionID ≠ sid
  · rw [if_pos h3] at h
    simp at h
  rw [if_neg h3] at h
  by_cases h4 : tr.status = .completed
  · rw [if_pos h4] at h
    simp at h
  rw [if_neg h4] at h
  by_cases h5 : tr.transmissionID ≠ tid
  · rw [if_pos h5] at h
    simp at h
  rw [if_neg h5] at h
  rcases h6 : mapLookup st.sessions sid with _ | sess
  · simp only [h6] at h
    simp only [uploadFinish] at h
    simp at h
  simp only [h6] at h
  by_cases h7 : tid ∈ sess.seenTransmissions
  · rw [if_pos h7] at h
    simp at h
  exact ⟨not_not.mp h1, sess, rfl, h7⟩

/-- After a successful `HandleUpload` with transmission id `tid`, either the
registration session has been closed (full teardown) or the session's seen set
now contains `tid`. -/
theorem handleUpload_ok_post (st : TransferState) (now : Nat) (okb : Bool)
    (sid tid fid : String)
    (h : (handleUpload st now okb sid tid fid).1 = .ok ()) :
    sid ∉ ((handleUpload st now okb sid tid fid).2).validSessions ∨
    ∃ sess, mapLookup ((handleUpload st now okb sid tid fid).2).sessions sid = some sess ∧
      tid ∈ sess.seenTransmissions := by
  rw [handleUpload] at h ⊢
  by_cases h1 : sid ∉ st.validSessions
  · rw [if_pos h1] at h
    simp at h
  rw [if_neg h1] at h ⊢
  rcases h2 : mapLookup st.transfers fid with _ | tr
  · simp only [h2] at h
    simp at h
  simp only [h2] at h ⊢
  by_cases h3 : tr.sessionID ≠ sid
  · rw [if_pos h3] at h
    simp at h
  rw [if_neg h3] at h ⊢
  by_cases h4 : tr.status = .completed
  · rw [if_pos h4] at h
    simp at h
  rw [if_neg h4] at h ⊢
  by_cases h5 : tr.transmissionID ≠ tid
  · rw [if_pos h5] at h
    simp at h
  rw [if_neg h5] at h ⊢
  rcases h6 : mapLookup st.sessions sid with _ | sess
  · simp only [h6] at h
    simp only [uploadFinish] at h
    simp at h
  simp only [h6] at h ⊢
  by_cases h7 : tid ∈ sess.seenTransmissions
  · rw [if_pos h7] at h
    simp at h
  rw [if_neg h7] at h ⊢
  by_cases h8 : sess.expiresAt < now
  · rw [if_pos h8] at h
    simp at h
  rw [if_neg h8] at h ⊢
  rw [uploadFinish] at h ⊢
  by_cases hres : allResolved
      (storeResult
        (withSessions st
          (mapInsert st.sessions sid (refreshSession sess tid now)))
        fid tr okb).transfers (refreshSession sess tid now).fileIDs
  · rw [if_pos hres] at h ⊢
    left
    simp only [endTransfer_validSessions, storeResult, withSessions]
    simp
  · rw [if_neg hres] at h ⊢
    right
    refine ⟨refreshSession sess tid now, ?_, ?_⟩
    · simp only [storeResult, withSessions]
      exact mapLookup_mapInsert_self _ _ _
    · simp [refreshSession, seenInsert]

/-- C1 (amended). A transmission id is accepted at most once per session:
if a `HandleUpload` call with `(S, T)` succeeds, every subsequent
`HandleUpload` call with the same `(S, T)` — any file id, clock reading and
store outcome — fails; the failure is not always `InvalidTransmission`: a
replay of an upload that completed returns `TransferComplete` (HTTP 409), and
when the success tore the whole session down the replay fails with
`InvalidSession` (or `TransferNotFound` at the handler's earlier lookup). -/
theorem handleUpload_at_most_once (st : TransferState) (now : Nat) (ok1 : Bool)
    (sid tid fid : String) (now2 : Nat) (ok2 : Bool) (fid2 : String)
    (h : (handleUpload st now ok1 sid tid fid).1 = .ok ()) :
    (handleUpload (handleUpload st now ok1 sid tid fid).2 now2 ok2 sid tid fid2).1 ≠
      .ok () := by
  intro h2
  obtain ⟨hval, sess', hsess', hseen'⟩ := handleUpload_ok_necessary _ _ _ _ _ _ h2
  rcases handleUpload_ok_post st now ok1 sid tid fid h with hnv | ⟨sess, hsess, hseen⟩
  · exact hnv hval
  · rw [hsess] at hsess'
    injection hsess' with he
    rw [← he] at hseen'
    exact hseen' hseen

/-- C1 counterexample. Two-file session "s" with transfers a ↦ T and
b ↦ U: the first upload `(s, T, a)` succeeds; the second upload with the same
transmission id T and the same file id fails with `TransferComplete` (HTTP
409, from the `Status == "completed"` check that precedes both transmission-id
checks), not with the claimed `InvalidTransmission`. -/
theorem handleUpload_replay_counterexample :
    (handleUpload
      ⟨["s"], [("a", ⟨"T", "s", .pending⟩), ("b", ⟨"U", "s", .pending⟩)],
        [("s", ⟨"s", 1, ["a", "b"], [], 100⟩)]⟩ 0 true "s" "T" "a").1 = .ok () ∧
    (handleUpload
      (handleUpload
        ⟨["s"], [("a", ⟨"T", "s", .pending⟩), ("b", ⟨"U", "s", .pending⟩)],
          [("s", ⟨"s", 1, ["a", "b"], [], 100⟩)]⟩ 0 true "s" "T" "a").2
      0 true "s" "T" "a").1 = .error .transferComplete ∧
    (Except.error UploadError.transferComplete : Except UploadError Unit) ≠
      .error .invalidTransmission := by
  refine ⟨rfl, rfl, by simp⟩

/-- Witness for C1 (amended): in the same two-file session, after the
successful upload `(s, T, a)`, a second upload with T (here against file b)
does not succeed. -/
theorem handleUpload_at_most_once_witness :
    (handleUpload
      (handleUpload
        ⟨["s"], [("a", ⟨"T", "s", .pending⟩), ("b", ⟨"U", "s", .pending⟩)],
          [("s", ⟨"s", 1, ["a", "b"], [], 100⟩)]⟩ 0 true "s" "T" "a").2
      7 false "s" "T" "b").1 ≠ .ok () :=
  handleUpload_at_most_once
    ⟨["s"], [("a", ⟨"T", "s", .pending⟩), ("b", ⟨"U", "s", .pending⟩)],
      [("s", ⟨"s", 1, ["a", "b"], [], 100⟩)]⟩ 0 true "s" "T" "a" 7 false "b" rfl
